import Mathlib

/-!
Verification of the Project Relationship & Consolidation Engine of the Omny
repository. The definitions below are a shallow embedding of the TypeScript
source: `server/services/projectAnalysis.ts`, the consolidation module
(unnamed source file defining `analyzeProjectConsolidation`,
`parseConsolidationResponse`, `callOpenAIWithRetry` and
`executeConsolidation`), and the in-memory storage semantics of
`server/storage.ts`. External network calls are modelled by oracles giving
the outcome of each attempt; JavaScript truthiness on optional strings is
modelled explicitly. Fields of the data model that no operation under
verification reads (owner, priority, due, completed, userId, createdAt) are
omitted.
-/

set_option maxRecDepth 10000

namespace Omny

/-- One entry of the `updates` history of a project (`shared/schema.ts`). -/
structure UpdateEntry where
  meetingId : Nat
  update : String
  date : String
deriving Repr, DecidableEq

/-- A project row. `context` is nullable in the schema. -/
structure Project where
  id : Nat
  name : String
  status : String
  lastUpdate : String
  context : Option String
  updates : List UpdateEntry
deriving Repr, DecidableEq

/-- A task row; only the fields the engine reads are kept.
`projectId` is a nullable foreign reference. -/
structure Task where
  id : Nat
  meetingId : Nat
  projectId : Option Nat
deriving Repr, DecidableEq

/-- Single-owner snapshot of the repository state, with the id counter of
`MemStorage` for project creation. -/
structure Storage where
  projects : List Project
  tasks : List Task
  nextProjectId : Nat
deriving Repr, DecidableEq

/-- The ids of the projects currently present in a storage state. -/
def liveIds (st : Storage) : List Nat := st.projects.map (fun p => p.id)

/-- `storage.getProject`: point read by id. -/
def getProject (st : Storage) (id : Nat) : Option Project :=
  st.projects.find? (fun p => p.id == id)

/-- `MemStorage.createProject`: assigns the next id and normalizes the
nullable `context` exactly as `insertProject.context || null` does
(the empty string is falsy in JavaScript). -/
def createProject (st : Storage) (name status lastUpdate : String)
    (context : String) (updates : List UpdateEntry) : Storage × Project :=
  let p : Project := {
    id := st.nextProjectId, name := name, status := status,
    lastUpdate := lastUpdate,
    context := if context = "" then none else some context,
    updates := updates }
  ({ st with projects := st.projects ++ [p], nextProjectId := st.nextProjectId + 1 }, p)

/-- `storage.updateProject` as called by `processProjectAnalysis`: overwrite
name, status, lastUpdate, context and updates of the project with the given
id; returns `none` and leaves the state unchanged when the id is absent. -/
def updateProject (st : Storage) (id : Nat) (name status lastUpdate : String)
    (context : Option String) (updates : List UpdateEntry) : Storage × Option Project :=
  match st.projects.find? (fun p => p.id == id) with
  | none => (st, none)
  | some p =>
    let p2 : Project := { p with
      name := name, status := status, lastUpdate := lastUpdate,
      context := context, updates := updates }
    ({ st with projects := st.projects.map (fun q => if q.id = id then p2 else q) },
     some p2)

/-- `storage.updateTask` as called by `processProjectAnalysis`: set the
`projectId` of the task with the given id; no-op returning `none` when the
task does not exist. -/
def updateTask (st : Storage) (id : Nat) (projectId : Nat) : Storage × Option Task :=
  match st.tasks.find? (fun t => t.id == id) with
  | none => (st, none)
  | some t =>
    let t2 : Task := { t with projectId := some projectId }
    ({ st with tasks := st.tasks.map (fun u => if u.id = id then t2 else u) },
     some t2)

/-- JavaScript `a || b` on an optional string `a`: `a` wins only when
present and non-empty. -/
def jsOr (a : Option String) (b : String) : String :=
  match a with
  | some s => if s = "" then b else s
  | none => b

/-! ## Reasoning client with retry (consolidation module) -/

def MAX_RETRIES : Nat := 3
def INITIAL_RETRY_DELAY_MS : Nat := 1000
def TOKENS_PER_CHAR_NUM : Nat := 2
def TOKENS_PER_CHAR_DEN : Nat := 5
def MAX_TOKENS_PER_REQUEST : Nat := 80000
def MAX_CONTEXT_LENGTH : Nat := 2000
def MAX_PROJECTS_PER_BATCH : Nat := 30

/-- Outcome of one attempt against the reasoning service. `success` carries
the already-destructured response body of type `α`; `noContent` is a 2xx
response whose message content is missing; `httpError` is a thrown API error
carrying an HTTP status; `otherError` is a thrown error with no status. -/
inductive AttemptOutcome (α : Type) where
  | success (content : α)
  | noContent
  | httpError (status : Nat)
  | otherError
deriving Repr, DecidableEq

/-- Result of `callOpenAIWithRetry`: the final outcome (error status, if
any, on the left), the total number of attempts made, and the list of
backoff delays slept in milliseconds. -/
instance exceptDecEq {ε α : Type} [DecidableEq ε] [DecidableEq α] :
    DecidableEq (Except ε α) := fun x y =>
  match x, y with
  | .ok a, .ok b =>
    if h : a = b then .isTrue (by rw [h]) else .isFalse (by simp [h])
  | .error a, .error b =>
    if h : a = b then .isTrue (by rw [h]) else .isFalse (by simp [h])
  | .ok _, .error _ => .isFalse (by simp)
  | .error _, .ok _ => .isFalse (by simp)

structure RetryResult (α : Type) where
  outcome : Except (Option Nat) α
  attempts : Nat
  delays : List Nat
deriving Repr, DecidableEq

/-- The retryable check `statusCode === 429 || (statusCode >= 500 && statusCode < 600)`. -/
def isRetryableStatus (s : Nat) : Prop := s = 429 ∨ (500 ≤ s ∧ s < 600)

instance (s : Nat) : Decidable (isRetryableStatus s) := by
  unfold isRetryableStatus; infer_instance

/-- The retry loop body of `callOpenAIWithRetry`: attempt numbers count from
0; a thrown error with status 429 or 5xx is retried while
`attempt < MAX_RETRIES - 1`, sleeping `INITIAL_RETRY_DELAY_MS * 2 ^ attempt`;
every other failure is rethrown at once. The fuel equals the remaining loop
iterations and the `fuel = 0` case mirrors the unreachable throw after the
loop. -/
def retryFrom (oracle : Nat → AttemptOutcome α) : Nat → Nat → RetryResult α
  | _, 0 => ⟨.error none, 0, []⟩
  | attempt, fuel + 1 =>
    match oracle attempt with
    | .success c => ⟨.ok c, 1, []⟩
    | .noContent => ⟨.error none, 1, []⟩
    | .otherError => ⟨.error none, 1, []⟩
    | .httpError s =>
      if isRetryableStatus s ∧ attempt < MAX_RETRIES - 1 then
        let d := INITIAL_RETRY_DELAY_MS * 2 ^ attempt
        let r := retryFrom oracle (attempt + 1) fuel
        ⟨r.outcome, r.attempts + 1, d :: r.delays⟩
      else ⟨.error (some s), 1, []⟩

/-- `callOpenAIWithRetry` of the consolidation module. -/
def callOpenAIWithRetry (oracle : Nat → AttemptOutcome α) : RetryResult α :=
  retryFrom oracle 0 MAX_RETRIES

/-! ## Relationship Analyzer (`server/services/projectAnalysis.ts`) -/

/-- One element of the `newProjects` input of `analyzeProjectRelationships`. -/
structure NewProjectData where
  name : String
  update : String
  context : String
  status : String
deriving Repr, DecidableEq

/-- The action of a project mapping: the string union `"create" | "merge"`. -/
inductive MappingAction where
  | create
  | merge
deriving Repr, DecidableEq

/-- A `projectMappings` element of the analysis response. -/
structure ProjectMapping where
  newProjectName : String
  action : MappingAction
  targetProjectId : Option Nat
  mergedName : Option String
  mergedContext : Option String
  reasoning : String
deriving Repr, DecidableEq

/-- A `taskAssignments` element of the analysis response. -/
structure TaskAssignment where
  taskId : Nat
  projectId : Nat
  reasoning : String
deriving Repr, DecidableEq

/-- The validated result type `ProjectAnalysisResult`. -/
structure ProjectAnalysisResult where
  projectMappings : List ProjectMapping
  taskAssignments : List TaskAssignment
deriving Repr, DecidableEq

/-- Parse outcome of the single completion call of
`analyzeProjectRelationships`: either the body is not JSON, or it parsed
into an object whose `projectMappings` and `taskAssignments` fields may each
be present or absent (an empty array is truthy in JavaScript, so presence is
what the structure validation checks). -/
inductive RelBody where
  | unparseable
  | parsed (projectMappings : Option (List ProjectMapping))
           (taskAssignments : Option (List TaskAssignment))
deriving Repr, DecidableEq

/-- The fallback result of `analyzeProjectRelationships`: every mention
becomes a `create` mapping and no tasks are assigned. -/
def fallbackResult (newProjects : List NewProjectData) : ProjectAnalysisResult := {
  projectMappings := newProjects.map (fun p => {
    newProjectName := p.name, action := .create, targetProjectId := none,
    mergedName := none, mergedContext := none,
    reasoning := "Fallback due to analysis error" }),
  taskAssignments := [] }

/-- `analyzeProjectRelationships`, abstracted over the outcome of each
completion attempt. The function short-circuits on an empty mention list
without calling the service; otherwise it makes exactly one attempt (there
is no retry loop in this module) and any upstream error, missing content,
unparseable body, or body missing either field lands in the catch block and
degrades to the fallback. Returns the result together with the number of
attempts consumed. -/
def analyzeProjectRelationships (newProjects : List NewProjectData)
    (oracle : Nat → AttemptOutcome RelBody) : ProjectAnalysisResult × Nat :=
  if newProjects = [] then ({ projectMappings := [], taskAssignments := [] }, 0)
  else
    match oracle 0 with
    | .success (.parsed (some ms) (some tas)) =>
      ({ projectMappings := ms, taskAssignments := tas }, 1)
    | _ => (fallbackResult newProjects, 1)

/-- One iteration of the mapping loop of `processProjectAnalysis`. A mapping
whose `newProjectName` matches no input mention is skipped. A `create`
mapping inserts a project seeded with one update entry. A `merge` mapping
with a truthy `targetProjectId` updates the target if it exists, appending
one update entry and overwriting name/status/lastUpdate/context following
JavaScript truthiness; a missing target is skipped silently. -/
def applyMapping (meetingId : Nat) (meetingDate : String)
    (newProjectsData : List NewProjectData)
    (acc : Storage × List Project) (mapping : ProjectMapping) :
    Storage × List Project :=
  match newProjectsData.find? (fun p => p.name == mapping.newProjectName) with
  | none => acc
  | some npd =>
    match mapping.action with
    | .create =>
      let (st2, proj) := createProject acc.1 (jsOr mapping.mergedName npd.name)
        npd.status npd.update npd.context
        [{ meetingId := meetingId, update := npd.update, date := meetingDate }]
      (st2, acc.2 ++ [proj])
    | .merge =>
      match mapping.targetProjectId with
      | none => acc
      | some tid =>
        if tid = 0 then acc
        else
          match getProject acc.1 tid with
          | none => acc
          | some existing =>
            let newContext : Option String :=
              match mapping.mergedContext with
              | some s => if s = "" then
                  (if npd.context = "" then existing.context else some npd.context)
                else some s
              | none =>
                if npd.context = "" then existing.context else some npd.context
            let (st2, updated) := updateProject acc.1 tid
              (jsOr mapping.mergedName existing.name) npd.status npd.update
              newContext
              (existing.updates ++
               [{ meetingId := meetingId, update := npd.update, date := meetingDate }])
            match updated with
            | some p => (st2, acc.2 ++ [p])
            | none => (st2, acc.2)

/-- One iteration of the task-assignment loop of `processProjectAnalysis`:
the target project is looked up first among the processed projects, then in
storage; when found, the task with `assignment.taskId` is pointed at
`assignment.projectId` (there is no check that the task was in the offered
unassigned set), otherwise nothing happens. -/
def applyAssignment (processed : List Project) (st : Storage)
    (assignment : TaskAssignment) : Storage :=
  let fromProcessed := processed.find? (fun p => p.id == assignment.projectId)
  let target := match fromProcessed with
    | some p => some p
    | none => getProject st assignment.projectId
  match target with
  | some _ => (updateTask st assignment.taskId assignment.projectId).1
  | none => st

/-- `processProjectAnalysis`: fold the mapping loop, then the assignment
loop; returns the final storage and the processed project list. -/
def processProjectAnalysis (analysis : ProjectAnalysisResult)
    (newProjectsData : List NewProjectData) (meetingId : Nat)
    (meetingDate : String) (st : Storage) : Storage × List Project :=
  let r := analysis.projectMappings.foldl
    (applyMapping meetingId meetingDate newProjectsData) (st, [])
  let st2 := analysis.taskAssignments.foldl (applyAssignment r.2) r.1
  (st2, r.2)

/-! ## Consolidation Analyzer (unnamed consolidation module) -/

/-- A consolidation group as it appears in the raw JSON response; the two id
fields are optional because the source checks their presence and type before
trusting them. -/
structure RawConsolidationGroup where
  sourceProjectIds : Option (List Nat)
  keepProjectId : Option Nat
  mergedName : String
  mergedContext : String
  reasoning : String
deriving Repr, DecidableEq

/-- A validated `ConsolidationGroup`. -/
structure ConsolidationGroup where
  sourceProjectIds : List Nat
  keepProjectId : Nat
  mergedName : String
  mergedContext : String
  reasoning : String
deriving Repr, DecidableEq

/-- Parse outcome of one consolidation response body: either the body is
not JSON, or it parsed into an object whose `consolidationGroups` field may
be present or absent. -/
inductive ConsBody where
  | unparseable
  | parsed (consolidationGroups : Option (List RawConsolidationGroup))
deriving Repr, DecidableEq

/-- The validation loop of `parseConsolidationResponse`: each group must
have a `sourceProjectIds` array and a numeric `keepProjectId`, every source
id and the keep id must be in the valid-id set, and the keep id must be a
member of the source ids; the first violation rejects the whole response. -/
def validateGroups (validProjectIds : List Nat) :
    List RawConsolidationGroup → Except String (List ConsolidationGroup)
  | [] => .ok []
  | g :: gs =>
    match g.sourceProjectIds with
    | none => .error "Invalid consolidation group: missing sourceProjectIds"
    | some srcs =>
      match g.keepProjectId with
      | none => .error "Invalid consolidation group: missing keepProjectId"
      | some keep =>
        if srcs.all (fun id => decide (id ∈ validProjectIds)) then
          if keep ∈ validProjectIds then
            if keep ∈ srcs then
              match validateGroups validProjectIds gs with
              | .error e => .error e
              | .ok rest => .ok ({
                  sourceProjectIds := srcs, keepProjectId := keep,
                  mergedName := g.mergedName, mergedContext := g.mergedContext,
                  reasoning := g.reasoning } :: rest)
            else .error "keepProjectId must be in sourceProjectIds"
          else .error "Invalid keepProjectId in response"
        else .error "Invalid project ID in response"

/-- `parseConsolidationResponse`: strip-and-parse (a body that is not JSON
raises a SyntaxError, surfaced by the enclosing catch as the fixed message
below), require the `consolidationGroups` array, then validate every group
against the valid-id set. -/
def parseConsolidationResponse (body : ConsBody) (validProjectIds : List Nat) :
    Except String (List ConsolidationGroup) :=
  match body with
  | .unparseable => .error "Invalid response from AI. Please try again."
  | .parsed none =>
    .error "Invalid response structure: missing consolidationGroups array"
  | .parsed (some gs) => validateGroups validProjectIds gs

/-- The lightweight per-project record sent to the reasoning service. -/
structure ProjectForAnalysis where
  id : Nat
  name : String
  context : Option String
  updatesCount : Nat
  tasksCount : Nat
deriving Repr, DecidableEq, Inhabited

/-- `estimateTokens`: the character count of names and contexts times the
conservative 0.4 tokens-per-character factor, rounded up (exact rational
reading of `Math.ceil(totalChars * 0.4)`). -/
def estimateTokens (ps : List ProjectForAnalysis) : Nat :=
  let totalChars := (ps.map (fun p => p.name.length + (p.context.getD "").length)).sum
  (totalChars * TOKENS_PER_CHAR_NUM + (TOKENS_PER_CHAR_DEN - 1)) / TOKENS_PER_CHAR_DEN

/-- Ordered batches of at most `MAX_PROJECTS_PER_BATCH` records; the fuel
argument (instantiated with the list length) makes the slicing loop
structurally recursive. -/
def batchProjectsAux (fuel : Nat) (xs : List ProjectForAnalysis) :
    List (List ProjectForAnalysis) :=
  match fuel, xs with
  | _, [] => []
  | 0, xs => [xs]
  | fuel + 1, xs =>
    xs.take MAX_PROJECTS_PER_BATCH ::
      batchProjectsAux fuel (xs.drop MAX_PROJECTS_PER_BATCH)

/-- The batch slicing of `analyzeProjectConsolidation`. -/
def batchProjects (xs : List ProjectForAnalysis) : List (List ProjectForAnalysis) :=
  batchProjectsAux xs.length xs

/-- One source project as shown in a proposed consolidation of the preview. -/
structure SourceRef where
  id : Nat
  name : String
  updatesCount : Nat
  tasksCount : Nat
deriving Repr, DecidableEq

/-- The target project of a proposed consolidation. -/
structure TargetRef where
  id : Nat
  name : String
deriving Repr, DecidableEq

/-- One element of `proposedConsolidations`, also the input shape of
`executeConsolidation`. -/
structure ProposedConsolidation where
  sourceProjects : List SourceRef
  targetProject : TargetRef
  mergedName : String
  mergedContext : String
  reason : String
deriving Repr, DecidableEq

/-- The `ConsolidationPreview` result shape. -/
structure ConsolidationPreview where
  success : Bool
  originalProjectCount : Nat
  proposedConsolidations : List ProposedConsolidation
  noChanges : Bool
  error : Option String
deriving Repr, DecidableEq

/-- The error-message mapping of the catch block of
`analyzeProjectConsolidation` for errors thrown by the retry client: 429
maps to the rate-limit message, 5xx to the unavailable message, an error
with no status surfaces its own message (modelled by the missing-content
message, the one no-status error thrown inside the client). -/
def consolidationErrorMessage (e : Option Nat) : String :=
  match e with
  | some s =>
    if s = 429 then "OpenAI rate limit exceeded. Please try again later."
    else if 500 ≤ s then "OpenAI service temporarily unavailable. Please try again later."
    else "Failed to analyze projects"
  | none => "No response from OpenAI"

/-- The per-batch loop of `analyzeProjectConsolidation`: each batch makes
one retried call and parses-and-validates the response; the first failure
aborts the whole loop (there is no per-batch catch), otherwise the validated
groups of all batches are concatenated in order. The oracle gives, for each
batch index, the outcome of each attempt of its call. -/
def runBatches (validProjectIds : List Nat)
    (oracle : Nat → Nat → AttemptOutcome ConsBody) (batchIdx : Nat) :
    List (List ProjectForAnalysis) → Except String (List ConsolidationGroup)
  | [] => .ok []
  | _batch :: rest =>
    match (callOpenAIWithRetry (oracle batchIdx)).outcome with
    | .error e => .error (consolidationErrorMessage e)
    | .ok body =>
      match parseConsolidationResponse body validProjectIds with
      | .error e => .error e
      | .ok gs =>
        match runBatches validProjectIds oracle (batchIdx + 1) rest with
        | .error e => .error e
        | .ok more => .ok (gs ++ more)

/-- Conversion of a validated group to a preview entry; the lookups mirror
the non-null assertions of the source, which validation makes safe. -/
def mkProposed (pfa : List ProjectForAnalysis) (g : ConsolidationGroup) :
    ProposedConsolidation :=
  let sourceProjects := g.sourceProjectIds.map (fun id =>
    let p := (pfa.find? (fun q => q.id == id)).getD default
    { id := p.id, name := p.name, updatesCount := p.updatesCount,
      tasksCount := p.tasksCount : SourceRef })
  let target := (pfa.find? (fun q => q.id == g.keepProjectId)).getD default
  { sourceProjects := sourceProjects,
    targetProject := { id := target.id, name := target.name },
    mergedName := g.mergedName, mergedContext := g.mergedContext,
    reason := g.reasoning }

/-- `analyzeProjectConsolidation`: short-circuit below two projects; build
the per-project analysis records and the valid-id set; batch when the token
estimate exceeds the request budget or the project count exceeds the batch
cap; run the batches; on success map the groups to the preview, on any
failure return a failed preview with zero proposals. The system-prompt
lookup is assumed to succeed (its failure branch only produces another
failed preview with zero proposals). -/
def analyzeProjectConsolidation (projects : List Project) (tasks : List Task)
    (oracle : Nat → Nat → AttemptOutcome ConsBody) : ConsolidationPreview :=
  if projects.length < 2 then
    { success := true, originalProjectCount := projects.length,
      proposedConsolidations := [], noChanges := true, error := none }
  else
    let pfa : List ProjectForAnalysis := projects.map (fun p => {
      id := p.id, name := p.name, context := p.context,
      updatesCount := p.updates.length,
      tasksCount := (tasks.filter (fun t => t.projectId == some p.id)).length })
    let validProjectIds := projects.map (fun p => p.id)
    let batches :=
      if estimateTokens pfa > MAX_TOKENS_PER_REQUEST ∨
         projects.length > MAX_PROJECTS_PER_BATCH
      then batchProjects pfa else [pfa]
    match runBatches validProjectIds oracle 0 batches with
    | .ok allGroups =>
      let proposed := allGroups.map (mkProposed pfa)
      { success := true, originalProjectCount := projects.length,
        proposedConsolidations := proposed,
        noChanges := proposed.length = 0, error := none }
    | .error e =>
      { success := false, originalProjectCount := projects.length,
        proposedConsolidations := [], noChanges := true, error := some e }

/-! ## Merge Executor (`executeConsolidation` of the consolidation module) -/

/-- Modelled from the spec: `storage.mergeProjects` is invoked by
`executeConsolidation` but its implementation is not among the provided
source files (the provided `server/storage.ts` predates it; the architecture
document lists it as a key storage operation). Following spec section 4.4,
it appends every source project update history onto the keep project
(preserving each source internal order, concatenated in listed order),
reassigns every task whose `projectId` is one of the sources to the keep
project, overwrites the keep project name and context with the proposed
merged name and context, deletes the source projects, and returns the
counts of updates consolidated and tasks reassigned. -/
def mergeProjects (st : Storage) (keepProjectId : Nat) (sourceIds : List Nat)
    (mergedName mergedContext : String) : Storage × Nat × Nat :=
  let srcProjects := sourceIds.filterMap (fun i => st.projects.find? (fun p => p.id == i))
  let movedUpdates := (srcProjects.map (fun p => p.updates)).flatten
  let taskHits := fun (t : Task) =>
    match t.projectId with
    | some pid => decide (pid ∈ sourceIds)
    | none => false
  let reassignedCount := (st.tasks.filter taskHits).length
  let newProjects :=
    (st.projects.filter (fun p => decide (p.id ∉ sourceIds))).map (fun p =>
      if p.id = keepProjectId then
        { p with
          name := mergedName, context := some mergedContext,
          updates := p.updates ++ movedUpdates }
      else p)
  let newTasks := st.tasks.map (fun t =>
    if taskHits t then { t with projectId := some keepProjectId } else t)
  ({ st with projects := newProjects, tasks := newTasks },
   movedUpdates.length, reassignedCount)

/-- Per-group outcome recorded by `executeConsolidation`. -/
structure GroupResult where
  sourceProjects : List TargetRef
  targetId : Nat
  targetName : String
  targetMergedContext : String
  updatesConsolidated : Nat
  tasksReassigned : Nat
  reason : String
deriving Repr, DecidableEq

/-- The `ConsolidationResult` shape. -/
structure ConsolidationResult where
  success : Bool
  originalProjectCount : Nat
  finalProjectCount : Nat
  consolidations : List GroupResult
  error : Option String
deriving Repr, DecidableEq

/-- Loop state of `executeConsolidation`: the evolving storage, the
in-memory set of project ids already absorbed in this run, and the
accumulated per-group results and errors. -/
structure ExecAcc where
  store : Storage
  deleted : Finset Nat
  results : List GroupResult
  errors : List String

/-- The merge-and-record tail of one loop iteration of
`executeConsolidation`: call `mergeProjects` with the source ids not yet
absorbed, then mark every (keep-filtered) source id absorbed and record the
group outcome. -/
def mergeAndRecord (acc : ExecAcc) (c : ProposedConsolidation)
    (keepProjectId : Nat) (sourceProjectIds : List Nat) (errs : List String) :
    ExecAcc :=
  let mergeArgs := sourceProjectIds.filter (fun id => decide (id ∉ acc.deleted))
  let m := mergeProjects acc.store keepProjectId mergeArgs c.mergedName c.mergedContext
  { store := m.1,
    deleted := sourceProjectIds.foldl (fun s i => insert i s) acc.deleted,
    results := acc.results ++ [{
      sourceProjects := (c.sourceProjects.filter (fun sp => sp.id ≠ keepProjectId)).map
        (fun sp => { id := sp.id, name := sp.name : TargetRef }),
      targetId := keepProjectId, targetName := c.mergedName,
      targetMergedContext := c.mergedContext,
      updatesConsolidated := m.2.1, tasksReassigned := m.2.2,
      reason := c.reason }],
    errors := errs }

/-- One iteration of the proposal loop of `executeConsolidation`. The
existence checks consult the snapshot taken before the loop (the source
builds `projectMap` once and never refreshes it) together with the absorbed
set. A missing or already-absorbed keep project records an error and skips
the group; missing source projects record an error, and the group is
skipped only when no source remains, otherwise the merge proceeds with the
not-yet-absorbed source ids. -/
def execStep (initialProjects : List Project) (acc : ExecAcc)
    (c : ProposedConsolidation) : ExecAcc :=
  let keepProjectId := c.targetProject.id
  if ¬ initialProjects.any (fun p => p.id == keepProjectId) ∨ keepProjectId ∈ acc.deleted then
    { acc with errors := acc.errors ++
        ["Target project " ++ toString keepProjectId ++ " no longer exists"] }
  else
    let sourceProjectIds :=
      (c.sourceProjects.map (fun sp => sp.id)).filter (fun id => id ≠ keepProjectId)
    let missingProjects := sourceProjectIds.filter (fun id =>
      ¬ initialProjects.any (fun p => p.id == id) ∨ id ∈ acc.deleted)
    if missingProjects = [] then
      mergeAndRecord acc c keepProjectId sourceProjectIds acc.errors
    else
      let errs := acc.errors ++ ["Source projects no longer exist"]
      let availableSourceIds := sourceProjectIds.filter (fun id =>
        initialProjects.any (fun p => p.id == id) ∧ id ∉ acc.deleted)
      if availableSourceIds = [] then { acc with errors := errs }
      else mergeAndRecord acc c keepProjectId sourceProjectIds errs

/-- `executeConsolidation`: read the live snapshot, process the approved
proposals sequentially, and report the final count as the original count
minus the number of absorbed project ids; completed groups stay committed
whatever later groups do. Returns the result and the final storage. -/
def executeConsolidation (consolidations : List ProposedConsolidation)
    (st : Storage) : ConsolidationResult × Storage :=
  let initialProjects := st.projects
  let originalCount := initialProjects.length
  let acc := consolidations.foldl (execStep initialProjects)
    { store := st, deleted := ∅, results := [], errors := [] }
  ({ success := acc.errors.isEmpty,
     originalProjectCount := originalCount,
     finalProjectCount := originalCount - acc.deleted.card,
     consolidations := acc.results,
     error := if acc.errors.isEmpty then none
              else some (String.intercalate "; " acc.errors) },
   acc.store)

/-- A raw group violating a referential invariant (or missing a required
field). -/
def groupViolates (validIds : List Nat) (g : RawConsolidationGroup) : Prop :=
  g.sourceProjectIds = none ∨ g.keepProjectId = none ∨
  ∃ srcs keep, g.sourceProjectIds = some srcs ∧ g.keepProjectId = some keep ∧
    ((∃ i ∈ srcs, i ∉ validIds) ∨ keep ∉ validIds ∨ keep ∉ srcs)

/-! ## Helper lemmas -/

/-- The fallback result maps every mention to a `create` mapping by its own
name and assigns no tasks. -/
theorem fallbackResult_spec (newProjects : List NewProjectData) :
    (fallbackResult newProjects).taskAssignments = [] ∧
    (fallbackResult newProjects).projectMappings.map
      (fun m => m.newProjectName) = newProjects.map (fun p => p.name) ∧
    ∀ m ∈ (fallbackResult newProjects).projectMappings, m.action = .create := by
  refine ⟨rfl, ?_, ?_⟩
  · simp [fallbackResult]
  · intro m hm
    simp only [fallbackResult, List.mem_map] at hm
    obtain ⟨p, _, hp⟩ := hm
    rw [← hp]

/-- Groups accepted by the validation loop satisfy the referential
invariants. -/
theorem validateGroups_ok (validIds : List Nat) :
    ∀ (gs : List RawConsolidationGroup) (out : List ConsolidationGroup),
      validateGroups validIds gs = .ok out →
      ∀ g ∈ out, g.keepProjectId ∈ g.sourceProjectIds ∧
        g.keepProjectId ∈ validIds ∧ ∀ i ∈ g.sourceProjectIds, i ∈ validIds := by
  intro gs
  induction gs with
  | nil =>
    intro out h g hg
    unfold validateGroups at h
    cases h
    cases hg
  | cons g gs ih =>
    intro out h g2 hg2
    unfold validateGroups at h
    cases hsrc : g.sourceProjectIds with
    | none => rw [hsrc] at h; cases h
    | some srcs =>
      rw [hsrc] at h
      cases hkeep : g.keepProjectId with
      | none => rw [hkeep] at h; cases h
      | some keep =>
        rw [hkeep] at h
        simp only at h
        by_cases hall : srcs.all (fun id => decide (id ∈ validIds))
        · rw [if_pos hall] at h
          by_cases hkv : keep ∈ validIds
          · rw [if_pos hkv] at h
            by_cases hks : keep ∈ srcs
            · rw [if_pos hks] at h
              cases hrec : validateGroups validIds gs with
              | error e => rw [hrec] at h; cases h
              | ok rest =>
                rw [hrec] at h
                cases h
                cases hg2 with
                | head =>
                  refine ⟨hks, hkv, ?_⟩
                  intro i hi
                  have := List.all_eq_true.mp hall i hi
                  simpa using this
                | tail _ htail => exact ih rest hrec g2 htail
            · rw [if_neg hks] at h; cases h
          · rw [if_neg hkv] at h; cases h
        · rw [if_neg hall] at h; cases h

/-- The validation loop accepts no raw group that violates the invariants. -/
theorem validateGroups_raw_ok (validIds : List Nat) :
    ∀ (gs : List RawConsolidationGroup) (out : List ConsolidationGroup),
      validateGroups validIds gs = .ok out →
      ∀ g ∈ gs, ¬ groupViolates validIds g := by
  intro gs
  induction gs with
  | nil => intro out _ g hg; cases hg
  | cons g gs ih =>
    intro out h g2 hg2
    unfold validateGroups at h
    cases hsrc : g.sourceProjectIds with
    | none => rw [hsrc] at h; cases h
    | some srcs =>
      rw [hsrc] at h
      cases hkeep : g.keepProjectId with
      | none => rw [hkeep] at h; cases h
      | some keep =>
        rw [hkeep] at h
        simp only at h
        by_cases hall : srcs.all (fun id => decide (id ∈ validIds))
        · rw [if_pos hall] at h
          by_cases hkv : keep ∈ validIds
          · rw [if_pos hkv] at h
            by_cases hks : keep ∈ srcs
            · rw [if_pos hks] at h
              cases hrec : validateGroups validIds gs with
              | error e => rw [hrec] at h; cases h
              | ok rest =>
                cases hg2 with
                | head =>
                  intro hviol
                  rcases hviol with h1 | h1 | ⟨s2, k2, hs2, hk2, hbad⟩
                  · rw [hsrc] at h1; cases h1
                  · rw [hkeep] at h1; cases h1
                  · rw [hsrc] at hs2; injection hs2 with hs2
                    rw [hkeep] at hk2; injection hk2 with hk2
                    subst hs2; subst hk2
                    rcases hbad with ⟨i, hi, hiv⟩ | hbad | hbad
                    · exact hiv (by simpa using List.all_eq_true.mp hall i hi)
                    · exact hbad hkv
                    · exact hbad hks
                | tail _ htail => exact ih rest hrec g2 htail
            · rw [if_neg hks] at h; cases h
          · rw [if_neg hkv] at h; cases h
        · rw [if_neg hall] at h; cases h

/-- Groups surviving a successful batch loop satisfy the referential
invariants. -/
theorem runBatches_ok (validIds : List Nat)
    (oracle : Nat → Nat → AttemptOutcome ConsBody) :
    ∀ (batches : List (List ProjectForAnalysis)) (idx : Nat)
      (out : List ConsolidationGroup),
      runBatches validIds oracle idx batches = .ok out →
      ∀ g ∈ out, g.keepProjectId ∈ g.sourceProjectIds ∧
        g.keepProjectId ∈ validIds ∧ ∀ i ∈ g.sourceProjectIds, i ∈ validIds := by
  intro batches
  induction batches with
  | nil =>
    intro idx out h g hg
    unfold runBatches at h
    cases h
    cases hg
  | cons b bs ih =>
    intro idx out h g hg
    unfold runBatches at h
    cases hcall : (callOpenAIWithRetry (oracle idx)).outcome with
    | error e => rw [hcall] at h; cases h
    | ok body =>
      rw [hcall] at h
      simp only at h
      cases hparse : parseConsolidationResponse body validIds with
      | error e => rw [hparse] at h; cases h
      | ok gs =>
        rw [hparse] at h
        simp only at h
        cases hrec : runBatches validIds oracle (idx + 1) bs with
        | error e => rw [hrec] at h; cases h
        | ok more =>
          rw [hrec] at h
          cases h
          rcases List.mem_append.mp hg with hmem | hmem
          · cases body with
            | unparseable => cases hparse
            | parsed ogs =>
              cases ogs with
              | none => cases hparse
              | some rgs =>
                exact validateGroups_ok validIds rgs gs hparse g hmem
          · exact ih (idx + 1) more hrec g hmem

/-- Bool-level existence check against the id projection. -/
theorem any_id_beq (l : List Project) (x : Nat) :
    l.any (fun p => p.id == x) = true ↔ x ∈ l.map (fun p => p.id) := by
  simp [List.any_eq_true, List.mem_map, beq_iff_eq]

/-- Folding set insertion over a list accumulates its members. -/
theorem foldl_insert_eq_union (l : List Nat) (s : Finset Nat) :
    l.foldl (fun s i => insert i s) s = s ∪ l.toFinset := by
  induction l generalizing s with
  | nil => simp
  | cons a l ih =>
    rw [List.foldl_cons, ih, List.toFinset_cons]
    ext x
    simp


/-- Cardinality of the accumulated set for fresh, duplicate-free ids. -/
theorem foldl_insert_card (l : List Nat) (s : Finset Nat) (hnd : l.Nodup)
    (hdisj : ∀ x ∈ l, x ∉ s) :
    (l.foldl (fun s i => insert i s) s).card = s.card + l.length := by
  rw [foldl_insert_eq_union, Finset.card_union_of_disjoint, List.toFinset_card_of_nodup hnd]
  rw [Finset.disjoint_left]
  intro a ha hb
  exact hdisj a (List.mem_toFinset.mp hb) ha

/-- Removing one occurrence of a present id from a duplicate-free list by
filtering shortens it by exactly one. -/
theorem length_filter_ne (l : List Nat) (a : Nat) (hnd : l.Nodup) (ha : a ∈ l) :
    (l.filter (fun id => id ≠ a)).length = l.length - 1 := by
  induction l with
  | nil => cases ha
  | cons b l ih =>
    rw [List.nodup_cons] at hnd
    rcases List.mem_cons.mp ha with h | h
    · subst h
      have hall : ∀ x ∈ l, (fun id => decide (id ≠ a)) x = true := by
        intro x hx
        simp only [decide_eq_true_eq, ne_eq]
        intro e
        exact hnd.1 (e ▸ hx)
      rw [List.filter_cons, if_neg (by simp), List.filter_eq_self.mpr hall]
      simp
    · have hba : b ≠ a := fun e => hnd.1 (e ▸ h)
      rw [List.filter_cons, if_pos (by simpa using hba)]
      have hlen := List.length_pos_of_mem h
      rw [List.length_cons, ih hnd.2 h, List.length_cons]
      omega

/-- The live project ids after a merge are exactly the previous live ids
outside the merged-away source list (the keep-project rewrite preserves
ids). -/
theorem liveIds_merge_eq (st : Storage) (keep : Nat) (srcs : List Nat)
    (mn mc : String) :
    liveIds (mergeProjects st keep srcs mn mc).1
      = (st.projects.filter (fun p => decide (p.id ∉ srcs))).map (fun p => p.id) := by
  simp only [mergeProjects, liveIds]
  rw [List.map_map]
  apply List.map_congr_left
  intro p _
  simp only [Function.comp]
  split <;> rfl

/-- Membership form of `liveIds_merge_eq`. -/
theorem mem_liveIds_merge (st : Storage) (keep : Nat) (srcs : List Nat)
    (mn mc : String) (x : Nat) :
    x ∈ liveIds (mergeProjects st keep srcs mn mc).1 ↔
      x ∈ liveIds st ∧ x ∉ srcs := by
  rw [liveIds_merge_eq]
  unfold liveIds
  simp only [List.mem_map, List.mem_filter, decide_eq_true_eq]
  constructor
  · rintro ⟨p, ⟨hp, hnp⟩, hid⟩
    exact ⟨⟨p, hp, hid⟩, by rw [← hid]; exact hnp⟩
  · rintro ⟨⟨p, hp, hid⟩, hnx⟩
    exact ⟨p, ⟨hp, by rw [hid]; exact hnx⟩, hid⟩

/-- Every task in the state after a merge either points at the keep project
or is an untouched task whose reference avoids the merged-away sources. -/
theorem tasks_merge_cases (st : Storage) (keep : Nat) (srcs : List Nat)
    (mn mc : String) (t2 : Task)
    (h : t2 ∈ (mergeProjects st keep srcs mn mc).1.tasks) :
    t2.projectId = some keep ∨
      (t2 ∈ st.tasks ∧ ∀ pid, t2.projectId = some pid → pid ∉ srcs) := by
  simp only [mergeProjects] at h
  rw [List.mem_map] at h
  obtain ⟨t, ht, hmap⟩ := h
  by_cases hc : (match t.projectId with
    | some pid => decide (pid ∈ srcs)
    | none => false) = true
  · rw [if_pos hc] at hmap
    left
    rw [← hmap]
  · rw [if_neg hc] at hmap
    subst hmap
    right
    refine ⟨ht, fun pid hpid hmem => hc ?_⟩
    rw [hpid]
    simpa using hmem

/-- A task pointing at a merged-away source is reassigned to the keep
project by the merge. -/
theorem mergeProjects_reassigns (st : Storage) (keep : Nat) (srcs : List Nat)
    (mn mc : String) (t : Task) (pid : Nat) (ht : t ∈ st.tasks)
    (hpid : t.projectId = some pid) (hmem : pid ∈ srcs) :
    ({ t with projectId := some keep } : Task)
      ∈ (mergeProjects st keep srcs mn mc).1.tasks := by
  simp only [mergeProjects]
  rw [List.mem_map]
  refine ⟨t, ht, ?_⟩
  rw [if_pos]
  rw [hpid]
  simpa using hmem

/-- The absorbed set after `mergeAndRecord` is the previous absorbed set
plus the keep-filtered source ids of the group. -/
theorem mergeAndRecord_deleted (acc : ExecAcc) (c : ProposedConsolidation)
    (keep : Nat) (srcs0 : List Nat) (errs : List String) :
    (mergeAndRecord acc c keep srcs0 errs).deleted
      = acc.deleted ∪ srcs0.toFinset := by
  simp only [mergeAndRecord]
  exact foldl_insert_eq_union srcs0 acc.deleted

/-- The two run invariants — absorbed-or-live coverage of the initial ids,
and no task reference into the initially-live-but-now-gone ids — survive the
merge-and-record tail of a loop iteration, provided the keep project is
initially live, not yet absorbed, and not among the sources. -/
theorem mergeAndRecord_inv (initialProjects : List Project) (acc : ExecAcc)
    (c : ProposedConsolidation) (keep : Nat) (srcs0 : List Nat)
    (errs : List String)
    (hA : ∀ id, id ∈ initialProjects.map (fun p => p.id) → id ∉ acc.deleted →
      id ∈ liveIds acc.store)
    (hB : ∀ t ∈ acc.store.tasks, ∀ pid, t.projectId = some pid →
      pid ∈ initialProjects.map (fun p => p.id) → pid ∈ liveIds acc.store)
    (hkeep_init : keep ∈ initialProjects.map (fun p => p.id))
    (hkeep_ndel : keep ∉ acc.deleted)
    (hkeep_nsrc : keep ∉ srcs0) :
    (∀ id, id ∈ initialProjects.map (fun p => p.id) →
       id ∉ (mergeAndRecord acc c keep srcs0 errs).deleted →
       id ∈ liveIds (mergeAndRecord acc c keep srcs0 errs).store) ∧
    (∀ t ∈ (mergeAndRecord acc c keep srcs0 errs).store.tasks,
       ∀ pid, t.projectId = some pid →
       pid ∈ initialProjects.map (fun p => p.id) →
       pid ∈ liveIds (mergeAndRecord acc c keep srcs0 errs).store) := by
  have hdel := mergeAndRecord_deleted acc c keep srcs0 errs
  have hstore : (mergeAndRecord acc c keep srcs0 errs).store
      = (mergeProjects acc.store keep
          (srcs0.filter (fun id => decide (id ∉ acc.deleted)))
          c.mergedName c.mergedContext).1 := rfl
  have hargs_sub : ∀ x, x ∈ srcs0.filter (fun id => decide (id ∉ acc.deleted)) → x ∈ srcs0 :=
    fun x hx => (List.mem_filter.mp hx).1
  have hkeep_live2 : keep ∈ liveIds (mergeAndRecord acc c keep srcs0 errs).store := by
    rw [hstore, mem_liveIds_merge]
    exact ⟨hA keep hkeep_init hkeep_ndel, fun hx => hkeep_nsrc (hargs_sub keep hx)⟩
  constructor
  · intro id hid hnd
    rw [hdel, Finset.mem_union, not_or] at hnd
    obtain ⟨hnd1, hnd2⟩ := hnd
    rw [hstore, mem_liveIds_merge]
    refine ⟨hA id hid hnd1, fun hx => ?_⟩
    exact hnd2 (List.mem_toFinset.mpr (hargs_sub id hx))
  · intro t2 ht2 pid hpid hpid_init
    rw [hstore] at ht2
    rcases tasks_merge_cases acc.store keep _ c.mergedName c.mergedContext t2 ht2 with
      hk | ⟨hold, hav⟩
    · rw [hk] at hpid
      injection hpid with hpid
      rw [← hpid]
      exact hkeep_live2
    · rw [hstore, mem_liveIds_merge]
      exact ⟨hB t2 hold pid hpid hpid_init, hav pid hpid⟩

/-- The two run invariants survive one full loop iteration of the merge
executor. -/
theorem execStep_inv (initialProjects : List Project) (acc : ExecAcc)
    (c : ProposedConsolidation)
    (hA : ∀ id, id ∈ initialProjects.map (fun p => p.id) → id ∉ acc.deleted →
      id ∈ liveIds acc.store)
    (hB : ∀ t ∈ acc.store.tasks, ∀ pid, t.projectId = some pid →
      pid ∈ initialProjects.map (fun p => p.id) → pid ∈ liveIds acc.store) :
    (∀ id, id ∈ initialProjects.map (fun p => p.id) →
       id ∉ (execStep initialProjects acc c).deleted →
       id ∈ liveIds (execStep initialProjects acc c).store) ∧
    (∀ t ∈ (execStep initialProjects acc c).store.tasks,
       ∀ pid, t.projectId = some pid →
       pid ∈ initialProjects.map (fun p => p.id) →
       pid ∈ liveIds (execStep initialProjects acc c).store) := by
  simp only [execStep]
  split
  · exact ⟨hA, hB⟩
  · rename_i hcond
    rw [not_or, not_not] at hcond
    obtain ⟨hany, hkeep_ndel⟩ := hcond
    have hkeep_init : c.targetProject.id ∈ initialProjects.map (fun p => p.id) :=
      (any_id_beq initialProjects c.targetProject.id).mp hany
    have hkeep_nsrc : c.targetProject.id ∉
        (c.sourceProjects.map (fun sp => sp.id)).filter
          (fun id => id ≠ c.targetProject.id) := by
      intro hx
      have := List.mem_filter.mp hx
      simp at this
    split
    · exact mergeAndRecord_inv initialProjects acc c _ _ _ hA hB
        hkeep_init hkeep_ndel hkeep_nsrc
    · split
      · exact ⟨hA, hB⟩
      · exact mergeAndRecord_inv initialProjects acc c _ _ _ hA hB
          hkeep_init hkeep_ndel hkeep_nsrc

/-- The two run invariants survive the whole proposal loop. -/
theorem foldl_execStep_inv (initialProjects : List Project)
    (cs : List ProposedConsolidation) (acc : ExecAcc)
    (hA : ∀ id, id ∈ initialProjects.map (fun p => p.id) → id ∉ acc.deleted →
      id ∈ liveIds acc.store)
    (hB : ∀ t ∈ acc.store.tasks, ∀ pid, t.projectId = some pid →
      pid ∈ initialProjects.map (fun p => p.id) → pid ∈ liveIds acc.store) :
    (∀ id, id ∈ initialProjects.map (fun p => p.id) →
       id ∉ (cs.foldl (execStep initialProjects) acc).deleted →
       id ∈ liveIds (cs.foldl (execStep initialProjects) acc).store) ∧
    (∀ t ∈ (cs.foldl (execStep initialProjects) acc).store.tasks,
       ∀ pid, t.projectId = some pid →
       pid ∈ initialProjects.map (fun p => p.id) →
       pid ∈ liveIds (cs.foldl (execStep initialProjects) acc).store) := by
  induction cs generalizing acc with
  | nil => exact ⟨hA, hB⟩
  | cons c cs ih =>
    rw [List.foldl_cons]
    have h := execStep_inv initialProjects acc c hA hB
    exact ih (execStep initialProjects acc c) h.1 h.2

/-- A loop iteration over a group whose keep project and sources are all
initially live and not yet absorbed takes the merge branch with no error. -/
theorem execStep_good (initialProjects : List Project) (acc : ExecAcc)
    (c : ProposedConsolidation)
    (hkeep_mem : c.targetProject.id ∈ initialProjects.map (fun p => p.id))
    (hkeep_ndel : c.targetProject.id ∉ acc.deleted)
    (hsrc_init : ∀ id ∈ c.sourceProjects.map (fun sp => sp.id),
      id ∈ initialProjects.map (fun p => p.id))
    (hsrc_ndel : ∀ id ∈ c.sourceProjects.map (fun sp => sp.id),
      id ∉ acc.deleted) :
    execStep initialProjects acc c
      = mergeAndRecord acc c c.targetProject.id
          ((c.sourceProjects.map (fun sp => sp.id)).filter
            (fun id => id ≠ c.targetProject.id))
          acc.errors := by
  have hany : (initialProjects.any fun p => p.id == c.targetProject.id) = true :=
    (any_id_beq initialProjects c.targetProject.id).mpr hkeep_mem
  have hcond : ¬ (¬ (initialProjects.any fun p => p.id == c.targetProject.id) = true ∨
      c.targetProject.id ∈ acc.deleted) := by
    rw [not_or, not_not]
    exact ⟨hany, hkeep_ndel⟩
  have hmiss : List.filter
      (fun id => decide (¬ (initialProjects.any fun p => p.id == id) = true ∨
        id ∈ acc.deleted))
      (List.filter (fun id => decide (id ≠ c.targetProject.id))
        (c.sourceProjects.map (fun sp => sp.id))) = [] := by
    rw [List.filter_eq_nil_iff]
    intro x hx
    have hx1 : x ∈ c.sourceProjects.map (fun sp => sp.id) := (List.mem_filter.mp hx).1
    simp only [decide_eq_true_eq, not_or, not_not]
    exact ⟨(any_id_beq initialProjects x).mpr (hsrc_init x hx1), hsrc_ndel x hx1⟩
  simp only [execStep]
  rw [if_neg hcond, if_pos hmiss]

/-- The absorbed-id count over a run of pairwise-disjoint, fully-live
groups: every group contributes exactly its size minus one. -/
theorem foldl_execStep_card (initialProjects : List Project) :
    ∀ (cs : List ProposedConsolidation) (acc : ExecAcc),
      (∀ g ∈ cs,
        g.targetProject.id ∈ g.sourceProjects.map (fun sp => sp.id) ∧
        (g.sourceProjects.map (fun sp => sp.id)).Nodup ∧
        ∀ id ∈ g.sourceProjects.map (fun sp => sp.id),
          id ∈ initialProjects.map (fun p => p.id)) →
      List.Pairwise (fun g1 g2 => ∀ id ∈ g1.sourceProjects.map (fun sp => sp.id),
        id ∉ g2.sourceProjects.map (fun sp => sp.id)) cs →
      (∀ id ∈ acc.deleted, ∀ g ∈ cs,
        id ∉ g.sourceProjects.map (fun sp => sp.id)) →
      (cs.foldl (execStep initialProjects) acc).deleted.card
        = acc.deleted.card +
          (cs.map (fun g =>
            (g.sourceProjects.map (fun sp => sp.id)).length - 1)).sum := by
  intro cs
  induction cs with
  | nil =>
    intro acc _ _ _
    simp
  | cons g cs ih =>
    intro acc hgood hpair hdel
    obtain ⟨hkeep_src, hnd, hinit⟩ := hgood g (List.mem_cons_self g cs)
    have hkeep_ndel : g.targetProject.id ∉ acc.deleted := fun hmem =>
      hdel _ hmem g (List.mem_cons_self g cs) hkeep_src
    have hsrc_ndel : ∀ id ∈ g.sourceProjects.map (fun sp => sp.id),
        id ∉ acc.deleted :=
      fun id hid hmem => hdel id hmem g (List.mem_cons_self g cs) hid
    have hpc := List.pairwise_cons.mp hpair
    have hsub : ∀ x ∈ (g.sourceProjects.map (fun sp => sp.id)).filter
        (fun id => id ≠ g.targetProject.id),
        x ∈ g.sourceProjects.map (fun sp => sp.id) :=
      fun x hx => (List.mem_filter.mp hx).1
    have hnd0 : ((g.sourceProjects.map (fun sp => sp.id)).filter
        (fun id => id ≠ g.targetProject.id)).Nodup := hnd.filter _
    have hdisj : Disjoint acc.deleted
        ((g.sourceProjects.map (fun sp => sp.id)).filter
          (fun id => id ≠ g.targetProject.id)).toFinset := by
      rw [Finset.disjoint_right]
      intro a ha
      exact hsrc_ndel a (hsub a (List.mem_toFinset.mp ha))
    have hdel2 : ∀ id ∈ (mergeAndRecord acc g g.targetProject.id
        ((g.sourceProjects.map (fun sp => sp.id)).filter
          (fun id => id ≠ g.targetProject.id)) acc.errors).deleted,
        ∀ g2 ∈ cs, id ∉ g2.sourceProjects.map (fun sp => sp.id) := by
      intro id hid g2 hg2
      rw [mergeAndRecord_deleted, Finset.mem_union] at hid
      rcases hid with hid | hid
      · exact hdel id hid g2 (List.mem_cons_of_mem g hg2)
      · exact hpc.1 g2 hg2 id (hsub id (List.mem_toFinset.mp hid))
    rw [List.foldl_cons,
      execStep_good initialProjects acc g (hinit _ hkeep_src) hkeep_ndel hinit hsrc_ndel,
      ih _ (fun g2 hg2 => hgood g2 (List.mem_cons_of_mem g hg2)) hpc.2 hdel2,
      mergeAndRecord_deleted, Finset.card_union_of_disjoint hdisj,
      List.toFinset_card_of_nodup hnd0,
      length_filter_ne _ _ hnd hkeep_src,
      List.map_cons, List.sum_cons]
    omega

/-! ## Claim theorems -/

/-- C2: every ConsolidationGroup surviving the analyzer validation satisfies
`keepProjectId ∈ sourceProjectIds` and all its ids exist in the supplied
valid-id set; and every response containing a violating group is rejected by
`parseConsolidationResponse` rather than coerced. -/
theorem C2_groups_validated (validIds : List Nat) :
    (∀ (oracle : Nat → Nat → AttemptOutcome ConsBody)
       (batches : List (List ProjectForAnalysis)) (idx : Nat)
       (out : List ConsolidationGroup),
       runBatches validIds oracle idx batches = .ok out →
       ∀ g ∈ out, g.keepProjectId ∈ g.sourceProjectIds ∧
         g.keepProjectId ∈ validIds ∧ ∀ i ∈ g.sourceProjectIds, i ∈ validIds) ∧
    (∀ (rgs : List RawConsolidationGroup) (rg : RawConsolidationGroup),
       rg ∈ rgs → groupViolates validIds rg →
       ∀ out, parseConsolidationResponse (.parsed (some rgs)) validIds ≠ .ok out) := by
  constructor
  · intro oracle batches idx out h
    exact runBatches_ok validIds oracle batches idx out h
  · intro rgs rg hmem hviol out h
    exact validateGroups_raw_ok validIds rgs out h rg hmem hviol

/-- C2 witness: a concrete two-project id set, a batch whose response holds
one valid group, and a violating group whose response is rejected. -/
theorem C2_groups_validated_witness :
    (1 ∈ ([1, 2] : List Nat) ∧ 1 ∈ ([1, 2] : List Nat) ∧
       ∀ i ∈ ([1, 2] : List Nat), i ∈ ([1, 2] : List Nat)) ∧
    (∀ out, parseConsolidationResponse
       (.parsed (some [⟨some [1, 7], some 1, "m", "c", "r"⟩])) [1, 2] ≠ .ok out) := by
  have h := C2_groups_validated [1, 2]
  constructor
  · have := h.1 (fun _ _ => .success (.parsed (some [⟨some [1, 2], some 1, "m", "c", "r"⟩])))
      [[]] 0 [⟨[1, 2], 1, "m", "c", "r"⟩] (by decide) ⟨[1, 2], 1, "m", "c", "r"⟩ (by decide)
    simp only at this
    exact this
  · exact h.2 [⟨some [1, 7], some 1, "m", "c", "r"⟩] ⟨some [1, 7], some 1, "m", "c", "r"⟩
      (by decide) (by right; right; exact ⟨[1, 7], 1, rfl, rfl, .inl ⟨7, by decide, by decide⟩⟩)

/-- C7: whenever the single completion attempt of the Relationship Analyzer
does not produce a parsed body with both fields present (upstream error,
missing content, unparseable body, or missing field), the returned result
maps every input mention to a `create` mapping by its own name and assigns
no tasks, so no mention is lost. -/
theorem C7_failure_fallback (newProjects : List NewProjectData)
    (oracle : Nat → AttemptOutcome RelBody)
    (hfail : ∀ ms tas, oracle 0 ≠ .success (.parsed (some ms) (some tas))) :
    ((analyzeProjectRelationships newProjects oracle).1.taskAssignments = []) ∧
    ((analyzeProjectRelationships newProjects oracle).1.projectMappings.map
      (fun m => m.newProjectName) = newProjects.map (fun p => p.name)) ∧
    (∀ m ∈ (analyzeProjectRelationships newProjects oracle).1.projectMappings,
      m.action = .create) := by
  unfold analyzeProjectRelationships
  by_cases hemp : newProjects = []
  · subst hemp; simp
  · rw [if_neg hemp]
    have hfb := fallbackResult_spec newProjects
    cases ho : oracle 0 with
    | success body =>
      cases body with
      | unparseable => simpa using hfb
      | parsed pm ta =>
        cases pm with
        | none => simpa using hfb
        | some ms =>
          cases ta with
          | none => simpa using hfb
          | some tas => exact absurd ho (hfail ms tas)
    | noContent => simpa using hfb
    | httpError s => simpa using hfb
    | otherError => simpa using hfb

/-- C7 witness: one mention, a rate-limited upstream call. -/
theorem C7_failure_fallback_witness :
    ((analyzeProjectRelationships [⟨"Alpha", "u", "c", "open"⟩]
        (fun _ => .httpError 429)).1.taskAssignments = []) ∧
    ((analyzeProjectRelationships [⟨"Alpha", "u", "c", "open"⟩]
        (fun _ => .httpError 429)).1.projectMappings.map
      (fun m => m.newProjectName)
        = ([⟨"Alpha", "u", "c", "open"⟩] : List NewProjectData).map (fun p => p.name)) ∧
    (∀ m ∈ (analyzeProjectRelationships [⟨"Alpha", "u", "c", "open"⟩]
        (fun _ => .httpError 429)).1.projectMappings, m.action = .create) :=
  C7_failure_fallback [⟨"Alpha", "u", "c", "open"⟩] (fun _ => .httpError 429)
    (fun ms tas h => by cases h)

/-- C9 counterexample: the validation accepts a group whose
`sourceProjectIds` has a single member, so a group with fewer than two
members is not rejected as the claim states. -/
theorem C9_counterexample :
    parseConsolidationResponse (.parsed (some [⟨some [1], some 1, "m", "c", "r"⟩])) [1]
      = .ok [⟨[1], 1, "m", "c", "r"⟩] ∧
    ¬ 2 ≤ ([1] : List Nat).length := by
  constructor
  · decide
  · decide

/-- C9 amended: the validation guarantees only that `sourceProjectIds` is
nonempty (a consequence of `keepProjectId ∈ sourceProjectIds`); no minimum
size of two is enforced, and singleton groups are accepted. -/
theorem C9_amended (body : ConsBody) (validIds : List Nat)
    (out : List ConsolidationGroup)
    (h : parseConsolidationResponse body validIds = .ok out) :
    ∀ g ∈ out, 1 ≤ g.sourceProjectIds.length := by
  intro g hg
  cases body with
  | unparseable => cases h
  | parsed ogs =>
    cases ogs with
    | none => cases h
    | some rgs =>
      have hs := (validateGroups_ok validIds rgs out h g hg).1
      cases hmem : g.sourceProjectIds with
      | nil => rw [hmem] at hs; cases hs
      | cons a l => simp

/-- C9 amended witness: the accepted singleton group has one member. -/
theorem C9_amended_witness :
    1 ≤ (⟨[1], 1, "m", "c", "r"⟩ : ConsolidationGroup).sourceProjectIds.length :=
  C9_amended (.parsed (some [⟨some [1], some 1, "m", "c", "r"⟩])) [1]
    [⟨[1], 1, "m", "c", "r"⟩] (by decide) ⟨[1], 1, "m", "c", "r"⟩ (by decide)

/-- A retryable failure below the attempt cap recurses with a doubled
backoff delay. -/
theorem retryFrom_retry_step {α : Type} (oracle : Nat → AttemptOutcome α)
    (attempt fuel s : Nat) (hs : isRetryableStatus s)
    (hlt : attempt < MAX_RETRIES - 1) (h : oracle attempt = .httpError s) :
    retryFrom oracle attempt (fuel + 1) =
      ⟨(retryFrom oracle (attempt + 1) fuel).outcome,
       (retryFrom oracle (attempt + 1) fuel).attempts + 1,
       (INITIAL_RETRY_DELAY_MS * 2 ^ attempt) ::
         (retryFrom oracle (attempt + 1) fuel).delays⟩ := by
  conv_lhs => rw [retryFrom]
  rw [h]
  simp only
  rw [if_pos ⟨hs, hlt⟩]

/-- A failure that is not retried (wrong status or attempt cap reached)
rethrows with its status at once. -/
theorem retryFrom_stop (oracle : Nat → AttemptOutcome α)
    (attempt fuel s : Nat)
    (hn : ¬ (isRetryableStatus s ∧ attempt < MAX_RETRIES - 1))
    (h : oracle attempt = .httpError s) :
    retryFrom oracle attempt (fuel + 1) = ⟨.error (some s), 1, []⟩ := by
  conv_lhs => rw [retryFrom]
  rw [h]
  simp only
  rw [if_neg hn]

/-- A missing-content response throws a status-free error, never retried. -/
theorem retryFrom_noContent (oracle : Nat → AttemptOutcome α)
    (attempt fuel : Nat) (h : oracle attempt = .noContent) :
    retryFrom oracle attempt (fuel + 1) = ⟨.error none, 1, []⟩ := by
  conv_lhs => rw [retryFrom]
  rw [h]

/-- A successful attempt returns its content at once. -/
theorem retryFrom_success (oracle : Nat → AttemptOutcome α)
    (attempt fuel : Nat) (c : α) (h : oracle attempt = .success c) :
    retryFrom oracle attempt (fuel + 1) = ⟨.ok c, 1, []⟩ := by
  conv_lhs => rw [retryFrom]
  rw [h]

/-- C4 counterexample: the Relationship Analyzer does not retry. On a
transient 429 failure of its single completion attempt it returns the
fallback after one attempt, even though a second attempt would have
succeeded — as the retry client of the consolidation module, run on the
same outcome sequence, demonstrates. -/
theorem C4_counterexample :
    analyzeProjectRelationships [⟨"Alpha", "u", "c", "open"⟩]
        (fun n => if n = 0 then .httpError 429 else .success (.parsed (some []) (some [])))
      = (fallbackResult [⟨"Alpha", "u", "c", "open"⟩], 1) ∧
    callOpenAIWithRetry
        (fun n => if n = 0 then .httpError 429
                  else .success (.parsed (some []) (some [])) : Nat → AttemptOutcome RelBody)
      = ⟨.ok (.parsed (some []) (some [])), 2, [1000]⟩ := by
  constructor
  · decide
  · decide

/-- C4 amended: the retry policy as claimed holds for `callOpenAIWithRetry`,
which only the Consolidation Analyzer uses: a 429 or 5xx failure is retried
up to 3 attempts total with delays 1000·2^attempt ms, and any other failure
(non-retryable status or missing content) fails on the first attempt with no
retry. The Relationship Analyzer makes exactly one attempt with no retry
whenever it calls the service at all. -/
theorem C4_amended {α : Type} (oracle : Nat → AttemptOutcome α) :
    (∀ s, isRetryableStatus s → (∀ n, oracle n = .httpError s) →
       callOpenAIWithRetry oracle = ⟨.error (some s), 3, [1000, 2000]⟩) ∧
    (∀ s c, isRetryableStatus s → oracle 0 = .httpError s → oracle 1 = .success c →
       callOpenAIWithRetry oracle = ⟨.ok c, 2, [1000]⟩) ∧
    (∀ s, ¬ isRetryableStatus s → oracle 0 = .httpError s →
       callOpenAIWithRetry oracle = ⟨.error (some s), 1, []⟩) ∧
    (oracle 0 = .noContent → callOpenAIWithRetry oracle = ⟨.error none, 1, []⟩) ∧
    (∀ (newProjects : List NewProjectData) (ro : Nat → AttemptOutcome RelBody),
       newProjects ≠ [] → (analyzeProjectRelationships newProjects ro).2 = 1) := by
  refine ⟨?_, ?_, ?_, ?_, ?_⟩
  · intro s hs h
    have h0 := retryFrom_retry_step oracle 0 2 s hs (by decide) (h 0)
    have h1 := retryFrom_retry_step oracle 1 1 s hs (by decide) (h 1)
    have h2 := retryFrom_stop oracle 2 0 s
      (fun hc => absurd hc.2 (by decide)) (h 2)
    norm_num at h0 h1 h2
    show retryFrom oracle 0 (2 + 1) = _
    rw [h0, h1, h2]
    simp [INITIAL_RETRY_DELAY_MS]
  · intro s c hs h0c h1c
    have h0 := retryFrom_retry_step oracle 0 2 s hs (by decide) h0c
    have h1 := retryFrom_success oracle 1 1 c h1c
    norm_num at h0 h1
    show retryFrom oracle 0 (2 + 1) = _
    rw [h0, h1]
    simp [INITIAL_RETRY_DELAY_MS]
  · intro s hs h0c
    show retryFrom oracle 0 (2 + 1) = _
    exact retryFrom_stop oracle 0 2 s (fun hc => hs hc.1) h0c
  · intro h0c
    show retryFrom oracle 0 (2 + 1) = _
    exact retryFrom_noContent oracle 0 2 h0c
  · intro newProjects ro hne
    unfold analyzeProjectRelationships
    rw [if_neg hne]
    cases ho : ro 0 with
    | success body =>
      cases body with
      | unparseable => simp
      | parsed pm ta => cases pm <;> cases ta <;> simp
    | noContent => simp
    | httpError s => simp
    | otherError => simp

/-- C4 amended witness: a consolidation-shaped oracle that always fails
with 503 exhausts 3 attempts with 1s and 2s waits; a single mention forces
the Relationship Analyzer to one attempt. -/
theorem C4_amended_witness :
    callOpenAIWithRetry (fun _ => (.httpError 503 : AttemptOutcome ConsBody))
      = ⟨.error (some 503), 3, [1000, 2000]⟩ ∧
    (analyzeProjectRelationships [⟨"Alpha", "u", "c", "open"⟩]
      (fun _ => .httpError 503)).2 = 1 := by
  have h := C4_amended (fun _ => (.httpError 503 : AttemptOutcome ConsBody))
  exact ⟨h.1 503 (by decide) (fun n => rfl),
         h.2.2.2.2 [⟨"Alpha", "u", "c", "open"⟩] (fun _ => .httpError 503) (by decide)⟩

/-- Updating the found project in place is visible to a subsequent point
read of the same id. -/
theorem find?_map_update (l : List Project) (tid : Nat) (p2 : Project)
    (hid : p2.id = tid) (hfound : (l.find? (fun p => p.id == tid)).isSome) :
    (l.map (fun q => if q.id = tid then p2 else q)).find? (fun p => p.id == tid)
      = some p2 := by
  induction l with
  | nil => simp at hfound
  | cons a l ih =>
    by_cases ha : a.id = tid
    · rw [List.map_cons, if_pos ha, List.find?_cons_of_pos _ (by simp [hid])]
    · rw [List.map_cons, if_neg ha, List.find?_cons_of_neg _ (by simp [ha])]
      rw [List.find?_cons_of_neg _ (by simp [ha])] at hfound
      exact ih hfound

/-- C8 counterexample: a merge mapping with `mergedName` and `mergedContext`
both absent does not leave the target context unchanged — the incoming
mention context overwrites it (JavaScript `mergedContext || newData.context
|| existing.context`). -/
theorem C8_counterexample :
    ((applyMapping 5 "d" [⟨"New", "u1", "new ctx", "open"⟩]
        (⟨[⟨1, "Alpha", "open", "old", some "old ctx", []⟩], [], 2⟩, [])
        ⟨"New", .merge, some 1, none, none, "r"⟩).1.projects.find?
          (fun p => p.id == 1)).map (fun p => p.context)
      = some (some "new ctx") ∧
    some "new ctx" ≠ some "old ctx" := by
  constructor
  · decide
  · decide

/-- C8 amended: applying a merge mapping whose `mergedName` is absent leaves
the target name unchanged and appends exactly one update entry while
refreshing `lastUpdate` to the mention update text; but with `mergedContext`
absent the context is overwritten by the mention context whenever that is
non-empty, and is unchanged only when the mention context is empty. -/
theorem C8_amended (st : Storage) (processed : List Project)
    (npds : List NewProjectData) (m : ProjectMapping) (npd : NewProjectData)
    (meetingId : Nat) (meetingDate : String) (tid : Nat) (ex : Project)
    (hact : m.action = .merge) (htid : m.targetProjectId = some tid)
    (h0 : tid ≠ 0)
    (hfind : npds.find? (fun p => p.name == m.newProjectName) = some npd)
    (hname : m.mergedName = none) (hctx : m.mergedContext = none)
    (hget : getProject st tid = some ex) :
    ∃ p2, getProject (applyMapping meetingId meetingDate npds (st, processed) m).1 tid
        = some p2 ∧
      p2.name = ex.name ∧
      p2.lastUpdate = npd.update ∧
      p2.updates = ex.updates ++ [⟨meetingId, npd.update, meetingDate⟩] ∧
      p2.context = (if npd.context = "" then ex.context else some npd.context) ∧
      (applyMapping meetingId meetingDate npds (st, processed) m).2
        = processed ++ [p2] := by
  have hexid : ex.id = tid := by
    have := List.find?_some hget
    simpa using this
  unfold applyMapping
  rw [hfind, hact, htid]
  simp only [if_neg h0]
  rw [hget, hname, hctx]
  unfold updateProject
  unfold getProject at hget
  rw [hget]
  simp only
  refine ⟨{ ex with
      name := jsOr none ex.name, status := npd.status, lastUpdate := npd.update,
      context := if npd.context = "" then ex.context else some npd.context,
      updates := ex.updates ++ [⟨meetingId, npd.update, meetingDate⟩] },
    ?_, rfl, rfl, rfl, rfl, rfl⟩
  unfold getProject
  simp only
  apply find?_map_update
  · simpa using hexid
  · rw [hget]; rfl

/-- C8 amended witness: concrete one-project state, mention context
"new ctx" overwrites "old ctx" while the name survives and one update entry
is appended. -/
theorem C8_amended_witness :
    ∃ p2, getProject (applyMapping 5 "d" [⟨"New", "u1", "new ctx", "open"⟩]
        (⟨[⟨1, "Alpha", "open", "old", some "old ctx", []⟩], [], 2⟩, [])
        ⟨"New", .merge, some 1, none, none, "r"⟩).1 1 = some p2 ∧
      p2.name = (⟨1, "Alpha", "open", "old", some "old ctx", []⟩ : Project).name ∧
      p2.lastUpdate = "u1" ∧
      p2.updates = ([] : List UpdateEntry) ++ [⟨5, "u1", "d"⟩] ∧
      p2.context = (if ("new ctx" : String) = "" then some "old ctx" else some "new ctx") ∧
      (applyMapping 5 "d" [⟨"New", "u1", "new ctx", "open"⟩]
        (⟨[⟨1, "Alpha", "open", "old", some "old ctx", []⟩], [], 2⟩, [])
        ⟨"New", .merge, some 1, none, none, "r"⟩).2 = [] ++ [p2] :=
  C8_amended ⟨[⟨1, "Alpha", "open", "old", some "old ctx", []⟩], [], 2⟩ []
    [⟨"New", "u1", "new ctx", "open"⟩] ⟨"New", .merge, some 1, none, none, "r"⟩
    ⟨"New", "u1", "new ctx", "open"⟩ 5 "d" 1
    ⟨1, "Alpha", "open", "old", some "old ctx", []⟩
    rfl rfl (by decide) (by decide) rfl rfl (by decide)

/-- C1 counterexample: a response containing a merge mapping whose
`targetProjectId` (999) does not exist and a task assignment whose `taskId`
(10) was not in the offered unassigned set (task 10 is already assigned) is
not rejected: the analyzer returns it unchanged instead of falling back, and
applying it creates the project of the valid `create` mapping and reassigns
task 10 — partial application occurs. -/
theorem C1_counterexample :
    analyzeProjectRelationships
        [⟨"New1", "u1", "c1", "open"⟩, ⟨"New2", "u2", "c2", "open"⟩]
        (fun _ => .success (.parsed
          (some [⟨"New1", .merge, some 999, none, none, "r"⟩,
                 ⟨"New2", .create, none, none, none, "r"⟩])
          (some [⟨10, 2, "r"⟩])))
      = (⟨[⟨"New1", .merge, some 999, none, none, "r"⟩,
           ⟨"New2", .create, none, none, none, "r"⟩], [⟨10, 2, "r"⟩]⟩, 1) ∧
    (⟨[⟨"New1", .merge, some 999, none, none, "r"⟩,
       ⟨"New2", .create, none, none, none, "r"⟩],
      [⟨10, 2, "r"⟩]⟩ : ProjectAnalysisResult)
      ≠ fallbackResult [⟨"New1", "u1", "c1", "open"⟩, ⟨"New2", "u2", "c2", "open"⟩] ∧
    (processProjectAnalysis
        ⟨[⟨"New1", .merge, some 999, none, none, "r"⟩,
          ⟨"New2", .create, none, none, none, "r"⟩], [⟨10, 2, "r"⟩]⟩
        [⟨"New1", "u1", "c1", "open"⟩, ⟨"New2", "u2", "c2", "open"⟩] 5 "d"
        ⟨[⟨1, "Alpha", "open", "old", some "old ctx", []⟩],
         [⟨10, 1, some 1⟩], 2⟩).1.projects.length = 2 ∧
    ((processProjectAnalysis
        ⟨[⟨"New1", .merge, some 999, none, none, "r"⟩,
          ⟨"New2", .create, none, none, none, "r"⟩], [⟨10, 2, "r"⟩]⟩
        [⟨"New1", "u1", "c1", "open"⟩, ⟨"New2", "u2", "c2", "open"⟩] 5 "d"
        ⟨[⟨1, "Alpha", "open", "old", some "old ctx", []⟩],
         [⟨10, 1, some 1⟩], 2⟩).1.tasks.find? (fun t => t.id == 10)).map
      (fun t => t.projectId) = some (some 2) := by
  refine ⟨?_, ?_, ?_, ?_⟩ <;> decide

/-- C1 amended: structure validation only rejects responses missing the
`projectMappings` or `taskAssignments` field; a response with both fields is
returned as-is with no referential check. At application time a merge
mapping whose target project does not exist is skipped individually, leaving
the run of the remaining mappings and assignments unaffected, and task
assignments are never checked against the offered unassigned set. -/
theorem C1_amended :
    (∀ (newProjects : List NewProjectData) (oracle : Nat → AttemptOutcome RelBody)
       (ms : List ProjectMapping) (tas : List TaskAssignment),
       newProjects ≠ [] →
       oracle 0 = .success (.parsed (some ms) (some tas)) →
       analyzeProjectRelationships newProjects oracle
         = (⟨ms, tas⟩, 1)) ∧
    (∀ (meetingId : Nat) (meetingDate : String) (npds : List NewProjectData)
       (acc : Storage × List Project) (m : ProjectMapping) (tid : Nat),
       m.action = .merge → m.targetProjectId = some tid →
       getProject acc.1 tid = none →
       applyMapping meetingId meetingDate npds acc m = acc) := by
  constructor
  · intro newProjects oracle ms tas hne ho
    unfold analyzeProjectRelationships
    rw [if_neg hne, ho]
  · intro meetingId meetingDate npds acc m tid hact htid hget
    unfold applyMapping
    cases hfind : npds.find? (fun p => p.name == m.newProjectName) with
    | none => rfl
    | some npd =>
      rw [hact, htid]
      simp only
      by_cases h0 : tid = 0
      · rw [if_pos h0]
      · rw [if_neg h0, hget]

/-- C1 amended witness: the concrete response of the counterexample is
returned as-is, and its invalid merge mapping alone is a no-op on the
concrete state. -/
theorem C1_amended_witness :
    analyzeProjectRelationships
        [⟨"New1", "u1", "c1", "open"⟩, ⟨"New2", "u2", "c2", "open"⟩]
        (fun _ => .success (.parsed
          (some [⟨"New1", .merge, some 999, none, none, "r"⟩])
          (some [⟨10, 2, "r"⟩])))
      = (⟨[⟨"New1", .merge, some 999, none, none, "r"⟩], [⟨10, 2, "r"⟩]⟩, 1) ∧
    applyMapping 5 "d" [⟨"New1", "u1", "c1", "open"⟩]
        (⟨[⟨1, "Alpha", "open", "old", some "old ctx", []⟩], [], 2⟩, [])
        ⟨"New1", .merge, some 999, none, none, "r"⟩
      = (⟨[⟨1, "Alpha", "open", "old", some "old ctx", []⟩], [], 2⟩, []) :=
  ⟨C1_amended.1 [⟨"New1", "u1", "c1", "open"⟩, ⟨"New2", "u2", "c2", "open"⟩]
      (fun _ => .success (.parsed
        (some [⟨"New1", .merge, some 999, none, none, "r"⟩])
        (some [⟨10, 2, "r"⟩])))
      [⟨"New1", .merge, some 999, none, none, "r"⟩] [⟨10, 2, "r"⟩]
      (by decide) rfl,
   C1_amended.2 5 "d" [⟨"New1", "u1", "c1", "open"⟩]
      (⟨[⟨1, "Alpha", "open", "old", some "old ctx", []⟩], [], 2⟩, [])
      ⟨"New1", .merge, some 999, none, none, "r"⟩ 999 rfl rfl (by decide)⟩

/-- C6 counterexample: with 31 projects the analyzer issues two batches;
the first batch response holds one valid group (which on its own passes
validation), the second holds an invalid one — yet the returned preview is a
failure with zero proposals, so the valid group of the first batch is not
included, contrary to the claim. -/
theorem C6_counterexample :
    (analyzeProjectConsolidation
        ((List.range 31).map (fun i => ⟨i + 1, "p", "open", "", none, []⟩)) []
        (fun b _ => if b = 0
          then .success (.parsed (some [⟨some [1, 2], some 1, "m", "c", "r"⟩]))
          else .success (.parsed (some [⟨some [99], some 99, "m", "c", "r"⟩])))).success
      = false ∧
    (analyzeProjectConsolidation
        ((List.range 31).map (fun i => ⟨i + 1, "p", "open", "", none, []⟩)) []
        (fun b _ => if b = 0
          then .success (.parsed (some [⟨some [1, 2], some 1, "m", "c", "r"⟩]))
          else .success (.parsed (some [⟨some [99], some 99, "m", "c", "r"⟩])))).proposedConsolidations
      = [] ∧
    parseConsolidationResponse (.parsed (some [⟨some [1, 2], some 1, "m", "c", "r"⟩]))
        ((List.range 31).map (fun i => i + 1))
      = .ok [⟨[1, 2], 1, "m", "c", "r"⟩] := by
  refine ⟨?_, ?_, ?_⟩ <;> decide

/-- C6 amended: a group failing validation in any batch invalidates the
whole analysis run, not only its own batch: whenever the returned preview
reports failure, it contains zero proposed consolidations — validated groups
from the other batches are discarded. -/
theorem C6_amended (projects : List Project) (tasks : List Task)
    (oracle : Nat → Nat → AttemptOutcome ConsBody)
    (h : (analyzeProjectConsolidation projects tasks oracle).success = false) :
    (analyzeProjectConsolidation projects tasks oracle).proposedConsolidations = [] ∧
    (analyzeProjectConsolidation projects tasks oracle).noChanges = true := by
  unfold analyzeProjectConsolidation at h ⊢
  by_cases hlen : projects.length < 2
  · rw [if_pos hlen] at h
    simp at h
  · rw [if_neg hlen] at h ⊢
    simp only at h ⊢
    revert h
    split
    · intro h
      simp at h
    · intro _
      exact ⟨rfl, rfl⟩

/-- C6 amended witness: the failing two-batch run of the counterexample
input indeed reports zero proposals and no changes. -/
theorem C6_amended_witness :
    (analyzeProjectConsolidation
        ((List.range 31).map (fun i => ⟨i + 1, "p", "open", "", none, []⟩)) []
        (fun b _ => if b = 0
          then .success (.parsed (some [⟨some [1, 2], some 1, "m", "c", "r"⟩]))
          else .success (.parsed (some [⟨some [99], some 99, "m", "c", "r"⟩])))).proposedConsolidations
      = [] ∧
    (analyzeProjectConsolidation
        ((List.range 31).map (fun i => ⟨i + 1, "p", "open", "", none, []⟩)) []
        (fun b _ => if b = 0
          then .success (.parsed (some [⟨some [1, 2], some 1, "m", "c", "r"⟩]))
          else .success (.parsed (some [⟨some [99], some 99, "m", "c", "r"⟩])))).noChanges
      = true :=
  C6_amended ((List.range 31).map (fun i => ⟨i + 1, "p", "open", "", none, []⟩)) []
    (fun b _ => if b = 0
      then .success (.parsed (some [⟨some [1, 2], some 1, "m", "c", "r"⟩]))
      else .success (.parsed (some [⟨some [99], some 99, "m", "c", "r"⟩])))
    (by decide)

/-- C10: a validated mapping whose `newProjectName` matches no input mention
is silently skipped by `processProjectAnalysis`: the outcome (final storage
and returned project list) is exactly what it would be without that mapping,
and the function records no error anywhere. -/
theorem C10_unmatched_mapping_skipped (m : ProjectMapping)
    (ms : List ProjectMapping) (tas : List TaskAssignment)
    (npds : List NewProjectData) (meetingId : Nat) (meetingDate : String)
    (st : Storage) (h : ∀ npd ∈ npds, npd.name ≠ m.newProjectName) :
    processProjectAnalysis ⟨m :: ms, tas⟩ npds meetingId meetingDate st
      = processProjectAnalysis ⟨ms, tas⟩ npds meetingId meetingDate st := by
  have hfind : npds.find? (fun p => p.name == m.newProjectName) = none := by
    rw [List.find?_eq_none]
    intro x hx
    simpa using h x hx
  have hskip : applyMapping meetingId meetingDate npds (st, []) m = (st, []) := by
    unfold applyMapping
    rw [hfind]
  unfold processProjectAnalysis
  simp only [List.foldl_cons, hskip]

/-- C10 witness: a mapping named "Ghost" against a single mention named
"Alpha" leaves the run unchanged. -/
theorem C10_unmatched_mapping_skipped_witness :
    processProjectAnalysis
        ⟨[⟨"Ghost", .create, none, none, none, "r"⟩], []⟩
        [⟨"Alpha", "u", "c", "open"⟩] 1 "d" ⟨[], [], 1⟩
      = processProjectAnalysis ⟨[], []⟩ [⟨"Alpha", "u", "c", "open"⟩] 1 "d" ⟨[], [], 1⟩ :=
  C10_unmatched_mapping_skipped ⟨"Ghost", .create, none, none, none, "r"⟩ [] []
    [⟨"Alpha", "u", "c", "open"⟩] 1 "d" ⟨[], [], 1⟩ (by decide)

/-- C3: after any `executeConsolidation` run, no task references a project
that was live at the start of the run and is gone at the end (deleted during
the run); and within each merged group, every task whose `projectId` was one
of the merged-away sources is reassigned to that group's keep project. The
merge itself relies on the spec-modelled `mergeProjects`. -/
theorem C3_no_orphaned_tasks (cs : List ProposedConsolidation) (st : Storage) :
    (∀ t ∈ (executeConsolidation cs st).2.tasks, ∀ pid, t.projectId = some pid →
       pid ∈ liveIds st → pid ∈ liveIds (executeConsolidation cs st).2) ∧
    (∀ (store : Storage) (keep : Nat) (srcs : List Nat) (mn mc : String)
       (t : Task) (pid : Nat), t ∈ store.tasks → t.projectId = some pid →
       pid ∈ srcs →
       ({ t with projectId := some keep } : Task)
         ∈ (mergeProjects store keep srcs mn mc).1.tasks) := by
  constructor
  · have h := foldl_execStep_inv st.projects cs ⟨st, ∅, [], []⟩
      (fun id hid _ => hid) (fun _ _ _ _ hmem => hmem)
    intro t ht pid hpid hmem
    exact h.2 t ht pid hpid hmem
  · intro store keep srcs mn mc t pid ht hpid hmem
    exact mergeProjects_reassigns store keep srcs mn mc t pid ht hpid hmem

/-- C3 witness: the example scenario — two projects merged into project 1,
the task initially pointing at absorbed project 2 still references a live
project afterwards, and a merge call reassigns such a task to the keep
project. -/
theorem C3_no_orphaned_tasks_witness :
    (1 : Nat) ∈ liveIds (executeConsolidation
      [⟨[⟨1, "A", 1, 0⟩, ⟨2, "B", 1, 1⟩], ⟨1, "A"⟩, "AB", "ctx", "dup"⟩]
      ⟨[⟨1, "A", "open", "", none, [⟨1, "ua", "d1"⟩]⟩,
        ⟨2, "B", "open", "", none, [⟨2, "ub", "d2"⟩]⟩],
       [⟨7, 1, some 2⟩], 3⟩).2 ∧
    ({ id := 7, meetingId := 1, projectId := some 1 } : Task) ∈ (mergeProjects
      ⟨[⟨1, "A", "open", "", none, []⟩, ⟨2, "B", "open", "", none, []⟩],
       [⟨7, 1, some 2⟩], 3⟩ 1 [2] "AB" "ctx").1.tasks :=
  ⟨(C3_no_orphaned_tasks
      [⟨[⟨1, "A", 1, 0⟩, ⟨2, "B", 1, 1⟩], ⟨1, "A"⟩, "AB", "ctx", "dup"⟩]
      ⟨[⟨1, "A", "open", "", none, [⟨1, "ua", "d1"⟩]⟩,
        ⟨2, "B", "open", "", none, [⟨2, "ub", "d2"⟩]⟩],
       [⟨7, 1, some 2⟩], 3⟩).1 ⟨7, 1, some 1⟩ (by decide) 1 rfl (by decide),
   (C3_no_orphaned_tasks [] ⟨[], [], 1⟩).2
      ⟨[⟨1, "A", "open", "", none, []⟩, ⟨2, "B", "open", "", none, []⟩],
       [⟨7, 1, some 2⟩], 3⟩ 1 [2] "AB" "ctx" ⟨7, 1, some 2⟩ 2
      (by decide) rfl (by decide)⟩

/-- C5: for a run over pairwise-disjoint groups whose keep project is listed
among its sources and whose ids all exist in the live snapshot (with no
duplicate ids inside a group), the returned `finalProjectCount` equals
`originalProjectCount` minus the sum over groups of (group size − 1). -/
theorem C5_final_count (cs : List ProposedConsolidation) (st : Storage)
    (hgood : ∀ g ∈ cs,
      g.targetProject.id ∈ g.sourceProjects.map (fun sp => sp.id) ∧
      (g.sourceProjects.map (fun sp => sp.id)).Nodup ∧
      ∀ id ∈ g.sourceProjects.map (fun sp => sp.id),
        id ∈ st.projects.map (fun p => p.id))
    (hpair : List.Pairwise (fun g1 g2 =>
      ∀ id ∈ g1.sourceProjects.map (fun sp => sp.id),
        id ∉ g2.sourceProjects.map (fun sp => sp.id)) cs) :
    (executeConsolidation cs st).1.finalProjectCount
      = (executeConsolidation cs st).1.originalProjectCount
        - (cs.map (fun g =>
            (g.sourceProjects.map (fun sp => sp.id)).length - 1)).sum := by
  have h1 : (executeConsolidation cs st).1.finalProjectCount
      = st.projects.length
        - (cs.foldl (execStep st.projects) ⟨st, ∅, [], []⟩).deleted.card := rfl
  have h2 : (executeConsolidation cs st).1.originalProjectCount
      = st.projects.length := rfl
  rw [h1, h2, foldl_execStep_card st.projects cs ⟨st, ∅, [], []⟩ hgood hpair
    (by intro id hid; simp at hid)]
  simp

/-- C5 witness: one group of size 2 over a two-project snapshot gives a
final count of 2 − (2 − 1). -/
theorem C5_final_count_witness :
    (executeConsolidation
      [⟨[⟨1, "A", 1, 0⟩, ⟨2, "B", 1, 1⟩], ⟨1, "A"⟩, "AB", "ctx", "dup"⟩]
      ⟨[⟨1, "A", "open", "", none, [⟨1, "ua", "d1"⟩]⟩,
        ⟨2, "B", "open", "", none, [⟨2, "ub", "d2"⟩]⟩],
       [⟨7, 1, some 2⟩], 3⟩).1.finalProjectCount
      = (executeConsolidation
      [⟨[⟨1, "A", 1, 0⟩, ⟨2, "B", 1, 1⟩], ⟨1, "A"⟩, "AB", "ctx", "dup"⟩]
      ⟨[⟨1, "A", "open", "", none, [⟨1, "ua", "d1"⟩]⟩,
        ⟨2, "B", "open", "", none, [⟨2, "ub", "d2"⟩]⟩],
       [⟨7, 1, some 2⟩], 3⟩).1.originalProjectCount
        - (([⟨[⟨1, "A", 1, 0⟩, ⟨2, "B", 1, 1⟩], ⟨1, "A"⟩, "AB", "ctx", "dup"⟩] :
            List ProposedConsolidation).map (fun g =>
            (g.sourceProjects.map (fun sp => sp.id)).length - 1)).sum :=
  C5_final_count
    [⟨[⟨1, "A", 1, 0⟩, ⟨2, "B", 1, 1⟩], ⟨1, "A"⟩, "AB", "ctx", "dup"⟩]
    ⟨[⟨1, "A", "open", "", none, [⟨1, "ua", "d1"⟩]⟩,
      ⟨2, "B", "open", "", none, [⟨2, "ub", "d2"⟩]⟩],
     [⟨7, 1, some 2⟩], 3⟩
    (by decide) (by decide)

end Omny
